import Mathlib

/-!
Shallow embedding of the PubMed paper-filter script (src/code.py).

Strings are Lean `String`s; substring tests, the email regex and the
author-processing loop are modelled at the `List Char` level.  A raw
PubMed record is modelled by `RawRecord`: every field access that can
raise in Python (missing key, empty list) is an `Option`/failure point.
The mutating loop of `extract_paper_details` becomes explicit state
passing (`LoopState`), with `Except Unit` marking a raised exception;
the `try/except Exception: pass` of the source swallows the error and
keeps the state accumulated so far.
-/

/-- Heuristic commercial keywords (`NON_ACADEMIC_KEYWORDS` in the source). -/
def NON_ACADEMIC_KEYWORDS : List String :=
  ["Pharma", "Biotech", "Inc", "Ltd", "Corporation", "Company", "Laboratories"]

/-- Academic keywords (`ACADEMIC_KEYWORDS` in the source). -/
def ACADEMIC_KEYWORDS : List String :=
  ["University", "Institute", "Academy", "Hospital", "Research Center"]

/-- Prefix test on character lists (needle, haystack). -/
def isPrefOf : List Char → List Char → Bool
  | [], _ => true
  | _ :: _, [] => false
  | a :: as, b :: bs => a == b && isPrefOf as bs

/-- Substring containment on character lists, modelling Python `needle in hay`. -/
def containsSub (needle : List Char) : List Char → Bool
  | [] => isPrefOf needle []
  | c :: t => isPrefOf needle (c :: t) || containsSub needle t

/-- Python `keyword in affiliation` on Lean strings. -/
def containsSubS (needle hay : String) : Bool :=
  containsSub needle.data hay.data

/-- The flagging condition of line 44 of the source: some commercial keyword
occurs as a substring and no academic keyword does (case-sensitive). -/
def flagCond (aff : String) : Bool :=
  NON_ACADEMIC_KEYWORDS.any (fun k => containsSubS k aff) &&
  !(ACADEMIC_KEYWORDS.any (fun k => containsSubS k aff))

/-- Python `"@" in affiliation`. -/
def containsAt (aff : String) : Bool :=
  aff.data.any (fun c => c == '@')

/-- A character matched by the class `[\w.-]` of the email pattern
(`\w` restricted to ASCII word characters). -/
def emailChar (c : Char) : Bool :=
  c.isAlphanum || c == '_' || c == '.' || c == '-'

/-- Attempt to match `[\w.-]+@[\w.-]+` at the start of the list: a maximal
non-empty run of email characters, then `@`, then a non-empty run. -/
def matchEmailAt (l : List Char) : Option (List Char) :=
  let run1 := l.takeWhile emailChar
  if run1.isEmpty then none
  else
    match l.drop run1.length with
    | '@' :: rest =>
      let run2 := rest.takeWhile emailChar
      if run2.isEmpty then none else some (run1 ++ '@' :: run2)
    | _ => none

/-- Model of `re.search(r"[\w\.-]+@[\w\.-]+", s)`: leftmost match of the email pattern. -/
def searchEmail : List Char → Option (List Char)
  | [] => none
  | c :: t =>
    match matchEmailAt (c :: t) with
    | some m => some m
    | none => searchEmail t

/-- Email search on Lean strings. -/
def searchEmailS (aff : String) : Option String :=
  (searchEmail aff.data).map (fun l => String.mk l)

/-- One author entry of the raw record.  `affiliationInfo = none` models the
`"AffiliationInfo"` key being absent; each list entry's `Option String` is the
`"Affiliation"` field of that entry (`none` = key missing).  `lastName` and
`foreName` are `none` when the corresponding key is missing. -/
structure RawAuthor where
  affiliationInfo : Option (List (Option String))
  lastName : Option String
  foreName : Option String
deriving DecidableEq

/-- The `Article` part of a raw record.  `pubYear = none` models a failure
anywhere in the `["Journal"]["JournalIssue"]["PubDate"]["Year"]` chain;
`article.get("AuthorList", [])` never fails, so the author list is plain. -/
structure RawArticle where
  articleTitle : Option String
  pubYear : Option String
  authorList : List RawAuthor
deriving DecidableEq

/-- A raw fetched record.  `article = none` models a failure anywhere in the
`records["PubmedArticle"][0]["MedlineCitation"]["Article"]` access chain. -/
structure RawRecord where
  article : Option RawArticle
deriving DecidableEq

/-- The mutable parts of `paper_info` touched by the author loop. -/
structure LoopState where
  names : List String
  affils : List String
  email : String
deriving DecidableEq

/-- Initial loop state: empty flagged lists, empty email (line 33). -/
def initState : LoopState := ⟨[], [], ""⟩

/-- Processing of a single author (lines 41-51).  `Except.error ()` models a
raised exception; every exception fires before any mutation of the state, so
the erroneous case needs no partial state. -/
def processAuthor (st : LoopState) (a : RawAuthor) : Except Unit LoopState :=
  match a.affiliationInfo with
  | none => Except.ok st
  | some [] => Except.error ()
  | some (none :: _) => Except.error ()
  | some (some aff :: _) =>
    let step1 : Except Unit LoopState :=
      if flagCond aff then
        match a.lastName with
        | none => Except.error ()
        | some ln =>
          match a.foreName with
          | none => Except.error ()
          | some fn =>
            Except.ok { st with names := st.names ++ [ln ++ " " ++ fn],
                                affils := st.affils ++ [aff] }
      else Except.ok st
    match step1 with
    | Except.error e => Except.error e
    | Except.ok st1 =>
      if containsAt aff then
        match searchEmailS aff with
        | some e => Except.ok { st1 with email := e }
        | none => Except.ok st1
      else Except.ok st1

/-- The author loop: fold `processAuthor` over the list; a raised exception
stops the loop, keeping the state built so far (the `except: pass` of line
52-53).  The boolean records whether the loop completed without exception. -/
def processAuthors : LoopState → List RawAuthor → LoopState × Bool
  | st, [] => (st, true)
  | st, a :: rest =>
    match processAuthor st a with
    | Except.error _ => (st, false)
    | Except.ok st1 => processAuthors st1 rest

/-- A normalized output row (`paper_info` when returned). -/
structure ResultRow where
  pubmedID : String
  title : String
  pubDate : String
  nonAcademicAuthors : List String
  companyAffiliations : List String
  correspondingEmail : String
deriving DecidableEq

/-- Model of `extract_paper_details` (lines 28-55): a failure before any author is
flagged leaves the flagged list empty, so those paths return `none`; after the
loop (completed or aborted) the row is returned iff the flagged list is
non-empty. -/
def extract_paper_details (pmid : String) (records : RawRecord) : Option ResultRow :=
  match records.article with
  | none => none
  | some article =>
    match article.articleTitle with
    | none => none
    | some title =>
      match article.pubYear with
      | none => none
      | some year =>
        let st := (processAuthors initState article.authorList).1
        if st.names.isEmpty then none
        else some { pubmedID := pmid, title := title, pubDate := year,
                    nonAcademicAuthors := st.names,
                    companyAffiliations := st.affils,
                    correspondingEmail := st.email }

/-- Model of `fetch_papers` after the search call (lines 21-26): the fetch of each
pmid is abstracted as a function from pmid to raw record. -/
def fetch_papers (fetch : String → RawRecord) : List String → List ResultRow
  | [] => []
  | pmid :: rest =>
    match extract_paper_details pmid (fetch pmid) with
    | some row => row :: fetch_papers fetch rest
    | none => fetch_papers fetch rest

/-- The `retmax=20` cap passed to the search call (line 16). -/
def esearch_retmax : Nat := 20

/-- The author loop's outcome for a record: `none` when an exception fires
before the loop (article, title or year access), otherwise the loop's final
state and completion flag. -/
def loopOutcome (r : RawRecord) : Option (LoopState × Bool) :=
  match r.article with
  | none => none
  | some article =>
    match article.articleTitle, article.pubYear with
    | some _, some _ => some (processAuthors initState article.authorList)
    | _, _ => none

/-- Whether extraction of the record raised (and swallowed) an exception. -/
def extractionAborted (r : RawRecord) : Bool :=
  match loopOutcome r with
  | none => true
  | some (_, ok) => !ok

/-- The flagged-author names accumulated for a record up to the point where
extraction stopped (empty when an exception fired before the loop). -/
def partialNames (r : RawRecord) : List String :=
  match loopOutcome r with
  | none => []
  | some (st, _) => st.names

/-- The author list the loop iterates over (empty when the article access
chain fails). -/
def authorsOf (r : RawRecord) : List RawAuthor :=
  match r.article with
  | none => []
  | some article => article.authorList

/-- The affiliation string the loop reads for an author:
`author["AffiliationInfo"][0]["Affiliation"]` when that access succeeds. -/
def firstAffiliation (a : RawAuthor) : Option String :=
  match a.affiliationInfo with
  | some (some aff :: _) => some aff
  | _ => none

/-- The email the loop would store for an author: the first email-shaped
substring of its first affiliation, attempted only when the affiliation
contains `@`. -/
def emailOf (a : RawAuthor) : Option String :=
  match firstAffiliation a with
  | some aff => if containsAt aff then searchEmailS aff else none
  | none => none

/-- The (name, affiliation) pair an author contributes to the flagged lists
when its processing flags it and both name parts are present. -/
def flaggedPair (a : RawAuthor) : Option (String × String) :=
  match a.affiliationInfo with
  | some (some aff :: _) =>
    if flagCond aff then
      match a.lastName, a.foreName with
      | some ln, some fn => some (ln ++ " " ++ fn, aff)
      | _, _ => none
    else none
  | _ => none

/-- The fixed CSV column names (line 59 of the source). -/
def FIELDNAMES : List String :=
  ["PubmedID", "Title", "Publication Date", "Non-academic Author(s)",
   "Company Affiliation(s)", "Corresponding Author Email"]

/-- Whether `csv` quotes a field: it contains a delimiter, quote char or
line break. -/
def csvNeedsQuote (s : String) : Bool :=
  s.data.any (fun c => c == ',' || c == '"' || c == '\n' || c == '\r')

/-- One CSV field, quoted when needed, inner quotes doubled. -/
def csvField (s : String) : String :=
  if csvNeedsQuote s then
    String.mk ('"' :: (s.data.flatMap (fun c => if c == '"' then ['"', '"'] else [c])) ++ ['"'])
  else s

/-- One CSV line: fields joined by commas. -/
def csvLine (fields : List String) : String :=
  String.intercalate "," (fields.map csvField)

/-- Python `str` of a list of strings, as `csv` renders the flagged lists
(repr with single quotes; models the common case of strings without quote
characters or backslashes). -/
def pyListRepr (xs : List String) : String :=
  "[" ++ String.intercalate ", "
    (xs.map (fun s => String.mk (Char.ofNat 39 :: s.data ++ [Char.ofNat 39]))) ++ "]"

/-- The field values `csv.DictWriter.writerows` renders for one row. -/
def rowFields (row : ResultRow) : List String :=
  [row.pubmedID, row.title, row.pubDate,
   pyListRepr row.nonAcademicAuthors, pyListRepr row.companyAffiliations,
   row.correspondingEmail]

/-- Model of `save_to_csv` (lines 57-61), as the list of lines written to the
file (each line is terminated by the writer; the terminator is not part of
the model): the header line from `writeheader`, then one line per row. -/
def save_to_csv (data : List ResultRow) : List String :=
  csvLine FIELDNAMES :: data.map (fun r => csvLine (rowFields r))

theorem isPrefOf_iff (n h : List Char) : isPrefOf n h = true ↔ n <+: h := by
  induction n generalizing h with
  | nil => simp [isPrefOf]
  | cons a as ih =>
    cases h with
    | nil => simp [isPrefOf]
    | cons b bs => simp [isPrefOf, List.cons_prefix_cons, Bool.and_eq_true, beq_iff_eq, ih]

theorem containsSub_iff (n h : List Char) : containsSub n h = true ↔ n <:+: h := by
  induction h with
  | nil => simp [containsSub, isPrefOf_iff]
  | cons c t ih =>
    simp [containsSub, Bool.or_eq_true, isPrefOf_iff, ih, List.infix_cons_iff]

theorem containsSub_eq_false_iff (n h : List Char) :
    containsSub n h = false ↔ ¬ n <:+: h := by
  rw [← containsSub_iff]
  cases containsSub n h <;> simp


/-- C2: an author's affiliation string flags it as non-academic exactly when
some commercial keyword occurs in it as a case-sensitive substring and no
academic keyword occurs in it as a case-sensitive substring; in particular an
affiliation containing both kinds of keyword never flags. -/
theorem claim2_flag_iff (aff : String) :
    flagCond aff = true ↔
      ((∃ k ∈ NON_ACADEMIC_KEYWORDS, k.data <:+: aff.data) ∧
       ∀ k ∈ ACADEMIC_KEYWORDS, ¬ k.data <:+: aff.data) := by
  simp [flagCond, Bool.and_eq_true, List.any_eq_true, containsSubS,
        containsSub_iff]

/-- C6: an author whose first affiliation is
"XYZ Pharma Inc, contact: a.b@xyz.com" is flagged, and the resulting row's
corresponding-author email is "a.b@xyz.com". -/
theorem claim6_pharma_example :
    extract_paper_details "42"
        ⟨some ⟨some "T", some "2024",
          [⟨some [some "XYZ Pharma Inc, contact: a.b@xyz.com"],
            some "Doe", some "John"⟩]⟩⟩
      = some ⟨"42", "T", "2024", ["Doe John"],
              ["XYZ Pharma Inc, contact: a.b@xyz.com"], "a.b@xyz.com"⟩ := by
  decide

/-- C7: for every row list the first CSV line is exactly the fixed six-column
header, and with zero rows the file consists of the header only. -/
theorem claim7_csv_header (data : List ResultRow) :
    (save_to_csv data).head? =
      some "PubmedID,Title,Publication Date,Non-academic Author(s),Company Affiliation(s),Corresponding Author Email" ∧
    save_to_csv ([] : List ResultRow) =
      ["PubmedID,Title,Publication Date,Non-academic Author(s),Company Affiliation(s),Corresponding Author Email"] :=
  ⟨rfl, rfl⟩

/-- C8: processing an author inspects only the first affiliation entry: the
entries after the first never change the outcome (flagging, email, failure). -/
theorem claim8_first_affiliation_only (st : LoopState) (e : Option String)
    (rest1 rest2 : List (Option String)) (ln fn : Option String) :
    processAuthor st ⟨some (e :: rest1), ln, fn⟩
      = processAuthor st ⟨some (e :: rest2), ln, fn⟩ := by
  cases e <;> rfl

theorem extract_eq_loop (pmid : String) (r : RawRecord) (art : RawArticle)
    (t y : String) (hr : r.article = some art) (ht : art.articleTitle = some t)
    (hy : art.pubYear = some y) :
    extract_paper_details pmid r =
      (if (processAuthors initState art.authorList).1.names.isEmpty then none
       else some { pubmedID := pmid, title := t, pubDate := y,
                   nonAcademicAuthors := (processAuthors initState art.authorList).1.names,
                   companyAffiliations := (processAuthors initState art.authorList).1.affils,
                   correspondingEmail := (processAuthors initState art.authorList).1.email }) := by
  simp [extract_paper_details, hr, ht, hy]

theorem extract_none_of_no_loop (pmid : String) (r : RawRecord)
    (h : loopOutcome r = none) : extract_paper_details pmid r = none := by
  cases hr : r.article with
  | none => simp [extract_paper_details, hr]
  | some art =>
    cases ht : art.articleTitle with
    | none => simp [extract_paper_details, hr, ht]
    | some t =>
      cases hy : art.pubYear with
      | none => simp [extract_paper_details, hr, ht, hy]
      | some y => simp [loopOutcome, hr, ht, hy] at h

theorem partialNames_loop (r : RawRecord) (art : RawArticle) (t y : String)
    (hr : r.article = some art) (ht : art.articleTitle = some t)
    (hy : art.pubYear = some y) :
    partialNames r = (processAuthors initState art.authorList).1.names := by
  simp [partialNames, loopOutcome, hr, ht, hy]

theorem partialNames_of_no_loop (r : RawRecord) (h : loopOutcome r = none) :
    partialNames r = [] := by
  simp [partialNames, h]

/-- The flagged author whose record aborts afterwards, for the C1 analysis. -/
def c1flaggedAuthor : RawAuthor := ⟨some [some "XYZ Pharma Inc"], some "Doe", some "Jane"⟩

/-- An author whose `AffiliationInfo` list is empty: indexing `[0]` raises. -/
def c1badAuthor : RawAuthor := ⟨some [], none, none⟩

/-- Record flagging one author and then failing on the next one. -/
def c1record : RawRecord := ⟨some ⟨some "T", some "2020", [c1flaggedAuthor, c1badAuthor]⟩⟩

/-- C1 is false as stated: on `c1record` a failure occurs while accessing an
expected field (the second author's empty `AffiliationInfo`), yet the record
is not dropped — the partially built row is returned. -/
theorem claim1_counterexample :
    extractionAborted c1record = true ∧
    extract_paper_details "1" c1record
      = some ⟨"1", "T", "2020", ["Doe Jane"], ["XYZ Pharma Inc"], ""⟩ := by
  decide

/-- C1 (amended): a failure while accessing expected fields stops extraction
of the record, but the record yields no result exactly when no author had been
flagged before the failure; otherwise the partially built row (with exactly
the flagged authors accumulated up to the failure) is returned. -/
theorem claim1_amended (pmid : String) (r : RawRecord)
    (h : extractionAborted r = true) :
    (extract_paper_details pmid r = none ↔ partialNames r = []) ∧
    ∀ row, extract_paper_details pmid r = some row →
      row.nonAcademicAuthors = partialNames r := by
  cases hout : loopOutcome r with
  | none =>
    rw [extract_none_of_no_loop pmid r hout, partialNames_of_no_loop r hout]
    simp
  | some p =>
    have hart : ∃ art t y, r.article = some art ∧ art.articleTitle = some t ∧
        art.pubYear = some y := by
      cases hr : r.article with
      | none => simp [loopOutcome, hr] at hout
      | some art =>
        cases ht : art.articleTitle with
        | none => simp [loopOutcome, hr, ht] at hout
        | some t =>
          cases hy : art.pubYear with
          | none => simp [loopOutcome, hr, ht, hy] at hout
          | some y => exact ⟨art, t, y, rfl, ht, hy⟩
    obtain ⟨art, t, y, hr, ht, hy⟩ := hart
    rw [extract_eq_loop pmid r art t y hr ht hy, partialNames_loop r art t y hr ht hy]
    cases hN : (processAuthors initState art.authorList).1.names with
    | nil => simp
    | cons nm ns =>
      refine ⟨by simp, ?_⟩
      intro row hrow
      simp only [List.isEmpty_cons, Bool.false_eq_true, if_false] at hrow
      injection hrow with h2
      rw [← h2]

theorem loopOutcome_inv (r : RawRecord) (p : LoopState × Bool)
    (hout : loopOutcome r = some p) :
    ∃ art t y, r.article = some art ∧ art.articleTitle = some t ∧
      art.pubYear = some y ∧ p = processAuthors initState art.authorList := by
  cases hr : r.article with
  | none => simp [loopOutcome, hr] at hout
  | some art =>
    cases ht : art.articleTitle with
    | none => simp [loopOutcome, hr, ht] at hout
    | some t =>
      cases hy : art.pubYear with
      | none => simp [loopOutcome, hr, ht, hy] at hout
      | some y =>
        simp only [loopOutcome, hr, ht, hy, Option.some.injEq] at hout
        exact ⟨art, t, y, rfl, ht, hy, hout.symm⟩

theorem extract_some_names (pmid : String) (r : RawRecord) (row : ResultRow)
    (h : extract_paper_details pmid r = some row) :
    row.nonAcademicAuthors ≠ [] := by
  cases hout : loopOutcome r with
  | none => rw [extract_none_of_no_loop pmid r hout] at h; cases h
  | some p =>
    obtain ⟨art, t, y, hr, ht, hy, hp⟩ := loopOutcome_inv r p hout
    rw [extract_eq_loop pmid r art t y hr ht hy] at h
    cases hN : (processAuthors initState art.authorList).1.names with
    | nil => rw [hN] at h; simp at h
    | cons nm ns =>
      rw [hN] at h
      simp only [List.isEmpty_cons, Bool.false_eq_true, if_false] at h
      injection h with h2
      rw [← h2]
      simp

theorem fetch_papers_names_ne_nil (fetch : String → RawRecord) (pmids : List String) :
    ∀ row ∈ fetch_papers fetch pmids, row.nonAcademicAuthors ≠ [] := by
  induction pmids with
  | nil => intro row hmem; simp [fetch_papers] at hmem
  | cons q rest ih =>
    intro row hmem
    cases hx : extract_paper_details q (fetch q) with
    | none =>
      simp only [fetch_papers, hx] at hmem
      exact ih row hmem
    | some row0 =>
      simp only [fetch_papers, hx] at hmem
      rcases List.mem_cons.mp hmem with h1 | h2
      · subst h1; exact extract_some_names q (fetch q) row hx
      · exact ih row h2

/-- C3: a record yields a row exactly when the flagged-author list built for
it is non-empty, and every row in the collected output has at least one
flagged author. -/
theorem claim3_row_iff_flagged (pmid : String) (r : RawRecord)
    (fetch : String → RawRecord) (pmids : List String) :
    ((extract_paper_details pmid r).isSome ↔ partialNames r ≠ []) ∧
    ∀ row, row ∈ fetch_papers fetch pmids → row.nonAcademicAuthors ≠ [] := by
  constructor
  · cases hout : loopOutcome r with
    | none =>
      rw [extract_none_of_no_loop pmid r hout, partialNames_of_no_loop r hout]
      simp
    | some p =>
      obtain ⟨art, t, y, hr, ht, hy, hp⟩ := loopOutcome_inv r p hout
      rw [extract_eq_loop pmid r art t y hr ht hy,
          partialNames_loop r art t y hr ht hy]
      cases hN : (processAuthors initState art.authorList).1.names with
      | nil => simp
      | cons nm ns => simp
  · intro row hmem
    exact fetch_papers_names_ne_nil fetch pmids row hmem

/-- Record used to witness C3. -/
def c3author : RawAuthor := ⟨some [some "ACME Biotech Ltd"], some "Roe", some "Ann"⟩

/-- Record used to witness C3. -/
def c3record : RawRecord := ⟨some ⟨some "T3", some "2021", [c3author]⟩⟩

/-- The row `c3record` produces. -/
def c3row : ResultRow := ⟨"3", "T3", "2021", ["Roe Ann"], ["ACME Biotech Ltd"], ""⟩

/-- Witness for C3 at a concrete record and a concrete collected output. -/
theorem claim3_witness :
    ((extract_paper_details "3" c3record).isSome ↔ partialNames c3record ≠ []) ∧
    c3row.nonAcademicAuthors ≠ [] :=
  ⟨(claim3_row_iff_flagged "3" c3record (fun _ => c3record) ["3"]).1,
   (claim3_row_iff_flagged "3" c3record (fun _ => c3record) ["3"]).2 c3row (by decide)⟩

/-- Witness for C1 (amended), on the record whose second author fails. -/
theorem claim1_witness :
    extractionAborted c1record = true ∧
    (extract_paper_details "1" c1record = none ↔ partialNames c1record = []) ∧
    (⟨"1", "T", "2020", ["Doe Jane"], ["XYZ Pharma Inc"], ""⟩ : ResultRow).nonAcademicAuthors
      = partialNames c1record :=
  ⟨by decide, (claim1_amended "1" c1record (by decide)).1,
   (claim1_amended "1" c1record (by decide)).2
     ⟨"1", "T", "2020", ["Doe Jane"], ["XYZ Pharma Inc"], ""⟩ (by decide)⟩

/-- C9: an author whose first affiliation contains an email-shaped substring
has that email stored even when it is not flagged (academic keyword present or
no commercial keyword): processing it only overwrites the email field. -/
theorem claim9_email_from_academic (st : LoopState) (a : RawAuthor) (aff e : String)
    (h1 : firstAffiliation a = some aff) (h2 : containsAt aff = true)
    (h3 : searchEmailS aff = some e) (h4 : flagCond aff = false) :
    processAuthor st a = Except.ok { st with email := e } := by
  cases ha : a.affiliationInfo with
  | none => simp [firstAffiliation, ha] at h1
  | some l =>
    cases l with
    | nil => simp [firstAffiliation, ha] at h1
    | cons o tl =>
      cases o with
      | none => simp [firstAffiliation, ha] at h1
      | some aff0 =>
        have heq : aff0 = aff := by simpa [firstAffiliation, ha] using h1
        subst heq
        simp [processAuthor, ha, h4, h2, h3]

/-- The academic author with an email, for the C9 witness. -/
def c9author : RawAuthor := ⟨some [some "University of X, j.k@uni.edu"], some "Roe", some "Ann"⟩

/-- A flagged author without an email, for the C9 witness. -/
def c9flagged : RawAuthor := ⟨some [some "ACME Pharma"], some "Poe", some "Bob"⟩

/-- Record whose returned row's email comes from the academic author. -/
def c9record : RawRecord := ⟨some ⟨some "T9", some "2019", [c9flagged, c9author]⟩⟩

/-- Witness for C9: the academic author's email is stored, and a returned
row's email originates from that non-flagged author. -/
theorem claim9_witness :
    firstAffiliation c9author = some "University of X, j.k@uni.edu" ∧
    containsAt "University of X, j.k@uni.edu" = true ∧
    searchEmailS "University of X, j.k@uni.edu" = some "j.k@uni.edu" ∧
    flagCond "University of X, j.k@uni.edu" = false ∧
    processAuthor initState c9author = Except.ok ⟨[], [], "j.k@uni.edu"⟩ ∧
    extract_paper_details "9" c9record
      = some ⟨"9", "T9", "2019", ["Poe Bob"], ["ACME Pharma"], "j.k@uni.edu"⟩ :=
  ⟨by decide, by decide, by decide, by decide,
   claim9_email_from_academic initState c9author "University of X, j.k@uni.edu"
     "j.k@uni.edu" (by decide) (by decide) (by decide) (by decide),
   by decide⟩

theorem processAuthor_ok_email (st : LoopState) (a : RawAuthor) (st1 : LoopState)
    (hpa : processAuthor st a = Except.ok st1) :
    st1.email = (emailOf a).getD st.email := by
  cases ha : a.affiliationInfo with
  | none =>
    simp only [processAuthor, ha, Except.ok.injEq] at hpa
    subst hpa
    simp [emailOf, firstAffiliation, ha]
  | some l =>
    cases l with
    | nil => simp [processAuthor, ha] at hpa
    | cons o tl =>
      cases o with
      | none => simp [processAuthor, ha] at hpa
      | some aff =>
        cases hf : flagCond aff with
        | false =>
          cases hat : containsAt aff with
          | false =>
            simp [processAuthor, ha, hf, hat] at hpa
            subst hpa
            simp [emailOf, firstAffiliation, ha, hat]
          | true =>
            cases hse : searchEmailS aff with
            | none =>
              simp [processAuthor, ha, hf, hat, hse] at hpa
              subst hpa
              simp [emailOf, firstAffiliation, ha, hat, hse]
            | some e =>
              simp [processAuthor, ha, hf, hat, hse] at hpa
              subst hpa
              simp [emailOf, firstAffiliation, ha, hat, hse]
        | true =>
          cases hl : a.lastName with
          | none => simp [processAuthor, ha, hf, hl] at hpa
          | some ln =>
            cases hfn : a.foreName with
            | none => simp [processAuthor, ha, hf, hl, hfn] at hpa
            | some fn =>
              cases hat : containsAt aff with
              | false =>
                simp [processAuthor, ha, hf, hl, hfn, hat] at hpa
                subst hpa
                simp [emailOf, firstAffiliation, ha, hat]
              | true =>
                cases hse : searchEmailS aff with
                | none =>
                  simp [processAuthor, ha, hf, hl, hfn, hat, hse] at hpa
                  subst hpa
                  simp [emailOf, firstAffiliation, ha, hat, hse]
                | some e =>
                  simp [processAuthor, ha, hf, hl, hfn, hat, hse] at hpa
                  subst hpa
                  simp [emailOf, firstAffiliation, ha, hat, hse]

/-- C4: when the author loop runs to completion, the stored corresponding
email is the one extracted from the last author (in author-list order) whose
first affiliation yields an email match — each match overwrites the field. -/
theorem claim4_email_last_wins (st : LoopState) (authors : List RawAuthor)
    (hok : (processAuthors st authors).2 = true) :
    (processAuthors st authors).1.email
      = (authors.filterMap emailOf).getLastD st.email := by
  induction authors generalizing st with
  | nil => simp [processAuthors]
  | cons a rest ih =>
    cases hpa : processAuthor st a with
    | error e => simp [processAuthors, hpa] at hok
    | ok st1 =>
      have hred : processAuthors st (a :: rest) = processAuthors st1 rest := by
        simp [processAuthors, hpa]
      rw [hred] at hok ⊢
      rw [ih st1 hok]
      have he := processAuthor_ok_email st a st1 hpa
      cases hm : emailOf a with
      | none =>
        rw [hm] at he
        simp only [Option.getD_none] at he
        rw [List.filterMap_cons_none hm, he]
      | some e2 =>
        rw [hm] at he
        simp only [Option.getD_some] at he
        rw [List.filterMap_cons_some hm, List.getLastD_cons, he]

/-- A non-flagged author with an email, for the C4 witness. -/
def c4author1 : RawAuthor := ⟨some [some "Lab one a@x.com"], none, none⟩

/-- A flagged author with another email, for the C4 witness. -/
def c4author2 : RawAuthor := ⟨some [some "Foo Ltd b@y.com"], some "Poe", some "Cy"⟩

/-- Author list for the C4 witness: two email-bearing authors. -/
def c4authors : List RawAuthor := [c4author1, c4author2]

/-- Witness for C4: both authors carry an email; the stored email is the one
of the last author. -/
theorem claim4_witness :
    (processAuthors initState c4authors).2 = true ∧
    (processAuthors initState c4authors).1.email
      = (c4authors.filterMap emailOf).getLastD initState.email ∧
    (processAuthors initState c4authors).1.email = "b@y.com" :=
  ⟨by decide, claim4_email_last_wins initState c4authors (by decide), by decide⟩

theorem extract_some_pmid (pmid : String) (r : RawRecord) (row : ResultRow)
    (h : extract_paper_details pmid r = some row) : row.pubmedID = pmid := by
  cases hout : loopOutcome r with
  | none => rw [extract_none_of_no_loop pmid r hout] at h; cases h
  | some q =>
    obtain ⟨art, t, y, hr, ht, hy, hq⟩ := loopOutcome_inv r q hout
    rw [extract_eq_loop pmid r art t y hr ht hy] at h
    cases hN : (processAuthors initState art.authorList).1.names with
    | nil => rw [hN] at h; simp at h
    | cons nm ns =>
      rw [hN] at h
      simp only [List.isEmpty_cons, Bool.false_eq_true, if_false] at h
      injection h with h2
      subst h2
      rfl

theorem fetch_papers_pmids_sublist (fetch : String → RawRecord) (pmids : List String) :
    List.Sublist ((fetch_papers fetch pmids).map (fun row => row.pubmedID)) pmids := by
  induction pmids with
  | nil => simp [fetch_papers]
  | cons q rest ih =>
    cases hx : extract_paper_details q (fetch q) with
    | none =>
      simp only [fetch_papers, hx]
      exact ih.cons q
    | some row0 =>
      simp only [fetch_papers, hx, List.map_cons]
      rw [extract_some_pmid q (fetch q) row0 hx]
      exact ih.cons₂ q

/-- C5: the search requests at most `esearch_retmax = 20` identifiers; from
any identifier list respecting that cap the pipeline emits at most one row
per identifier, in identifier order (the output pmids are a sublist of the
input), so the row count is at most the list length and at most the cap. -/
theorem claim5_output_bounded (fetch : String → RawRecord) (pmids : List String)
    (hlen : pmids.length ≤ esearch_retmax) :
    List.Sublist ((fetch_papers fetch pmids).map (fun row => row.pubmedID)) pmids ∧
    (fetch_papers fetch pmids).length ≤ pmids.length ∧
    (fetch_papers fetch pmids).length ≤ esearch_retmax := by
  have hsub := fetch_papers_pmids_sublist fetch pmids
  have hle : (fetch_papers fetch pmids).length ≤ pmids.length := by
    have hl2 := hsub.length_le
    simpa using hl2
  exact ⟨hsub, hle, le_trans hle hlen⟩

/-- Record with one flagged author, for the C5 witness. -/
def c5record : RawRecord :=
  ⟨some ⟨some "T5", some "2022", [⟨some [some "Gen Corporation"], some "Lee", some "Kim"⟩]⟩⟩

/-- Fetch environment for the C5 witness. -/
def c5fetch : String → RawRecord := fun _ => c5record

/-- Identifier list for the C5 witness. -/
def c5pmids : List String := ["1", "2"]

/-- Witness for C5 at a concrete fetch environment and identifier list. -/
theorem claim5_witness :
    c5pmids.length ≤ esearch_retmax ∧
    (List.Sublist ((fetch_papers c5fetch c5pmids).map (fun row => row.pubmedID)) c5pmids ∧
     (fetch_papers c5fetch c5pmids).length ≤ c5pmids.length ∧
     (fetch_papers c5fetch c5pmids).length ≤ esearch_retmax) :=
  ⟨by decide, claim5_output_bounded c5fetch c5pmids (by decide)⟩

/-- Pure outcome of processing one author: `none` = an exception fires,
`some none` = processed without contributing a flagged pair,
`some (some p)` = processed and contributes the pair `p`. -/
def authorStep (a : RawAuthor) : Option (Option (String × String)) :=
  match a.affiliationInfo with
  | none => some none
  | some [] => none
  | some (none :: _) => none
  | some (some aff :: _) =>
    if flagCond aff then
      match a.lastName, a.foreName with
      | some ln, some fn => some (some (ln ++ " " ++ fn, aff))
      | _, _ => none
    else some none

/-- The (name, affiliation) pairs the loop accumulates over an author list,
stopping at the first author that raises. -/
def flaggedPairs : List RawAuthor → List (String × String)
  | [] => []
  | a :: rest =>
    match authorStep a with
    | none => []
    | some none => flaggedPairs rest
    | some (some p) => p :: flaggedPairs rest

theorem processAuthor_names_affils (st : LoopState) (a : RawAuthor) :
    (match authorStep a with
     | none => ∃ e, processAuthor st a = Except.error e
     | some op => ∃ st1, processAuthor st a = Except.ok st1 ∧
         st1.names = st.names ++ ((op.map Prod.fst).toList) ∧
         st1.affils = st.affils ++ ((op.map Prod.snd).toList)) := by
  cases ha : a.affiliationInfo with
  | none => simp [authorStep, processAuthor, ha]
  | some l =>
    cases l with
    | nil => simp [authorStep, processAuthor, ha]
    | cons o tl =>
      cases o with
      | none => simp [authorStep, processAuthor, ha]
      | some aff =>
        cases hf : flagCond aff with
        | false =>
          cases hat : containsAt aff with
          | false => simp [authorStep, processAuthor, ha, hf, hat]
          | true =>
            cases hse : searchEmailS aff with
            | none => simp [authorStep, processAuthor, ha, hf, hat, hse]
            | some e => simp [authorStep, processAuthor, ha, hf, hat, hse]
        | true =>
          cases hl : a.lastName with
          | none => simp [authorStep, processAuthor, ha, hf, hl]
          | some ln =>
            cases hfn : a.foreName with
            | none => simp [authorStep, processAuthor, ha, hf, hl, hfn]
            | some fn =>
              cases hat : containsAt aff with
              | false => simp [authorStep, processAuthor, ha, hf, hl, hfn, hat]
              | true =>
                cases hse : searchEmailS aff with
                | none => simp [authorStep, processAuthor, ha, hf, hl, hfn, hat, hse]
                | some e => simp [authorStep, processAuthor, ha, hf, hl, hfn, hat, hse]

theorem processAuthors_names_affils (authors : List RawAuthor) (st : LoopState) :
    (processAuthors st authors).1.names = st.names ++ (flaggedPairs authors).map Prod.fst ∧
    (processAuthors st authors).1.affils = st.affils ++ (flaggedPairs authors).map Prod.snd := by
  induction authors generalizing st with
  | nil => simp [processAuthors, flaggedPairs]
  | cons a rest ih =>
    have hpa := processAuthor_names_affils st a
    cases hstep : authorStep a with
    | none =>
      rw [hstep] at hpa
      obtain ⟨e, he⟩ := hpa
      simp [processAuthors, he, flaggedPairs, hstep]
    | some op =>
      rw [hstep] at hpa
      obtain ⟨st1, hok, hn, ha2⟩ := hpa
      have hred : processAuthors st (a :: rest) = processAuthors st1 rest := by
        simp [processAuthors, hok]
      rw [hred]
      obtain ⟨ihn, iha⟩ := ih st1
      cases op with
      | none =>
        simp only [flaggedPairs, hstep]
        constructor
        · rw [ihn, hn]; simp
        · rw [iha, ha2]; simp
      | some p =>
        simp only [flaggedPairs, hstep]
        constructor
        · rw [ihn, hn]; cases p; simp
        · rw [iha, ha2]; cases p; simp

theorem zip_map_fst_snd_self {α β : Type} (l : List (α × β)) :
    (l.map Prod.fst).zip (l.map Prod.snd) = l := by
  induction l with
  | nil => rfl
  | cons p t ih => cases p; simp [ih]

theorem flaggedPair_of_authorStep (a : RawAuthor) (p : String × String)
    (h : authorStep a = some (some p)) : flaggedPair a = some p := by
  cases ha : a.affiliationInfo with
  | none => simp [authorStep, ha] at h
  | some l =>
    cases l with
    | nil => simp [authorStep, ha] at h
    | cons o tl =>
      cases o with
      | none => simp [authorStep, ha] at h
      | some aff =>
        cases hf : flagCond aff with
        | false => simp [authorStep, ha, hf] at h
        | true =>
          cases hl : a.lastName with
          | none => simp [authorStep, ha, hf, hl] at h
          | some ln =>
            cases hfn : a.foreName with
            | none => simp [authorStep, ha, hf, hl, hfn] at h
            | some fn =>
              simp only [authorStep, ha, hf, hl, hfn, if_true, Option.some.injEq] at h
              simp [flaggedPair, ha, hf, hl, hfn, h]

theorem flaggedPairs_mem (authors : List RawAuthor) :
    ∀ p ∈ flaggedPairs authors, ∃ a, a ∈ authors ∧ flaggedPair a = some p := by
  induction authors with
  | nil => intro p hp; simp [flaggedPairs] at hp
  | cons a rest ih =>
    intro p hp
    cases hstep : authorStep a with
    | none => simp [flaggedPairs, hstep] at hp
    | some op =>
      cases op with
      | none =>
        simp only [flaggedPairs, hstep] at hp
        obtain ⟨b, hb, hfp⟩ := ih p hp
        exact ⟨b, List.mem_cons_of_mem a hb, hfp⟩
      | some q =>
        simp only [flaggedPairs, hstep] at hp
        rcases List.mem_cons.mp hp with h1 | h2
        · subst h1
          exact ⟨a, List.mem_cons_self a rest, flaggedPair_of_authorStep a p hstep⟩
        · obtain ⟨b, hb, hfp⟩ := ih p h2
          exact ⟨b, List.mem_cons_of_mem a hb, hfp⟩

theorem extract_some_fields (pmid : String) (r : RawRecord) (art : RawArticle)
    (t y : String) (row : ResultRow) (hr : r.article = some art)
    (ht : art.articleTitle = some t) (hy : art.pubYear = some y)
    (h : extract_paper_details pmid r = some row) :
    row.nonAcademicAuthors = (processAuthors initState art.authorList).1.names ∧
    row.companyAffiliations = (processAuthors initState art.authorList).1.affils := by
  rw [extract_eq_loop pmid r art t y hr ht hy] at h
  cases hN : (processAuthors initState art.authorList).1.names with
  | nil => rw [hN] at h; simp at h
  | cons nm ns =>
    rw [hN] at h
    simp only [List.isEmpty_cons, Bool.false_eq_true, if_false] at h
    injection h with h2
    subst h2
    exact ⟨rfl, rfl⟩

/-- C10: in every returned row the flagged-name and flagged-affiliation lists
have equal length and are paired in lockstep: every (name, affiliation) pair
comes from one author of the record, the affiliation being that author's
first affiliation entry; this holds also for rows of aborted extractions. -/
theorem claim10_lockstep (pmid : String) (r : RawRecord) (row : ResultRow)
    (h : extract_paper_details pmid r = some row) :
    row.nonAcademicAuthors.length = row.companyAffiliations.length ∧
    ∀ p ∈ row.nonAcademicAuthors.zip row.companyAffiliations,
      ∃ a, a ∈ authorsOf r ∧ flaggedPair a = some p := by
  cases hout : loopOutcome r with
  | none => rw [extract_none_of_no_loop pmid r hout] at h; cases h
  | some q =>
    obtain ⟨art, t, y, hr, ht, hy, hq⟩ := loopOutcome_inv r q hout
    obtain ⟨hn, ha2⟩ := extract_some_fields pmid r art t y row hr ht hy h
    obtain ⟨hN1, hN2⟩ := processAuthors_names_affils art.authorList initState
    have hnames : row.nonAcademicAuthors = (flaggedPairs art.authorList).map Prod.fst := by
      rw [hn, hN1]; simp [initState]
    have haffs : row.companyAffiliations = (flaggedPairs art.authorList).map Prod.snd := by
      rw [ha2, hN2]; simp [initState]
    have hauth : authorsOf r = art.authorList := by simp [authorsOf, hr]
    refine ⟨?_, ?_⟩
    · rw [hnames, haffs]; simp
    · intro p hp
      rw [hnames, haffs, zip_map_fst_snd_self] at hp
      rw [hauth]
      exact flaggedPairs_mem art.authorList p hp

/-- Flagged author for the C10 witness. -/
def c10author1 : RawAuthor := ⟨some [some "Zeta Inc"], some "Hu", some "Li"⟩

/-- Failing author (empty `AffiliationInfo`) for the C10 witness. -/
def c10bad : RawAuthor := ⟨some [], none, none⟩

/-- Record for the C10 witness, aborting after its first author. -/
def c10record : RawRecord := ⟨some ⟨some "TX", some "2018", [c10author1, c10bad]⟩⟩

/-- The row `c10record` produces. -/
def c10row : ResultRow := ⟨"10", "TX", "2018", ["Hu Li"], ["Zeta Inc"], ""⟩

/-- Witness for C10 on an aborting record: lengths agree and the single pair
comes from the record's first author. -/
theorem claim10_witness :
    c10row.nonAcademicAuthors.length = c10row.companyAffiliations.length ∧
    (∃ a, a ∈ authorsOf c10record ∧ flaggedPair a = some ("Hu Li", "Zeta Inc")) :=
  ⟨(claim10_lockstep "10" c10record c10row (by decide)).1,
   (claim10_lockstep "10" c10record c10row (by decide)).2 ("Hu Li", "Zeta Inc") (by decide)⟩
